import Mathlib

/-!
Verification development for the code-snippet extraction engine of the
AIunittest repository (backend/app/services/parsers).  The per-language
parsers locate function/method declarations with Python `re` patterns and
recover their extent either by brace counting (Go, C++, C#), by a grammar
parse (Python, Java), or by an indentation fallback (Python).

The embedding works on `List Char` (Python `str`).  Python's `re` module,
restricted to the regular constructs actually occurring in the parsers'
fixed patterns (character classes, alternation, greedy and lazy repetition,
capture groups; no anchors except via `re.match`, no backreferences), is
modelled by a backtracking matcher `matchesF` that returns all matches in
Python's backtracking preference order (leftmost alternative first, greedy
repetition longest first, lazy repetition shortest first); `finditer`,
`search` and anchored `match` are derived from it exactly as in CPython.
-/

namespace Spec2Proof

/-! ## Python string primitives -/

/-- Worker for `pySplitLines`; every recursive step consumes at least the
separator character, so `fuel = s.length` never runs out. -/
def pySplitLinesAux : Nat → List Char → List (List Char)
  | 0, _ => []
  | _, [] => []
  | fuel + 1, s =>
    let line := s.takeWhile (fun c => c ≠ '\n')
    let rest := s.dropWhile (fun c => c ≠ '\n')
    match rest with
    | [] => [line]
    | _ :: rest' => line :: pySplitLinesAux fuel rest'

/-- Python `str.splitlines()` restricted to `\n` separators (the only line
separator occurring in the inputs considered): no trailing empty line for a
trailing newline, and `""` gives `[]`. -/
def pySplitLines (s : List Char) : List (List Char) :=
  pySplitLinesAux s.length s

/-- Python `"\n".join(lines)`. -/
def pyJoinNL (lines : List (List Char)) : List Char :=
  (List.intercalate ['\n'] lines)

/-- Python slice `s[a:b]` for `a ≤ b` (the only uses in the parsers). -/
def pySlice (s : List Char) (a b : Nat) : List Char :=
  (s.drop a).take (b - a)

/-- Python whitespace in the sense of `\s` / `str.strip()`:
space, tab, newline, carriage return, form feed, vertical tab. -/
def pyIsSpace (c : Char) : Bool :=
  c = ' ' || c = '\t' || c = '\n' || c = '\r' || c = '\x0c' || c = '\x0b'

/-- Python `str.strip()`. -/
def pyStrip (s : List Char) : List Char :=
  ((s.dropWhile pyIsSpace).reverse.dropWhile pyIsSpace).reverse

/-- Python `code[:pos].count('\n')`. -/
def countNLBefore (code : List Char) (pos : Nat) : Nat :=
  (code.take pos).countP (fun c => c = '\n')

/-- Character class `[A-Za-z0-9_]`. -/
def isIdentChar (c : Char) : Bool :=
  ('A' ≤ c && c ≤ 'Z') || ('a' ≤ c && c ≤ 'z') || ('0' ≤ c && c ≤ '9') || c = '_'

/-- Character class `[a-zA-Z_]`. -/
def isAlphaUnd (c : Char) : Bool :=
  ('A' ≤ c && c ≤ 'Z') || ('a' ≤ c && c ≤ 'z') || c = '_'

/-- Character class `\w` (ASCII range; all inputs considered are ASCII). -/
def pyIsWord (c : Char) : Bool := isIdentChar c

/-! ## A backtracking model of the Python `re` fragment used by the parsers -/

/-- Regular-expression syntax: character classes as predicates, sequencing,
alternation, repetition (`lazy = true` for `*?`), and numbered capture
groups.  `?` is `alt e eps` (greedy: present first) and `+` is
`seq e (star e false)`. -/
inductive RE where
  | eps : RE
  | cls : (Char → Bool) → RE
  | seq : RE → RE → RE
  | alt : RE → RE → RE
  | star : RE → Bool → RE
  | grp : Nat → RE → RE

/-- Capture environment: latest assignment first, Python group numbering. -/
def Caps := List (Nat × List Char)

def setCap (i : Nat) (v : List Char) (c : Caps) : Caps := (i, v) :: c

def getCap (i : Nat) (c : Caps) : Option (List Char) :=
  (List.find? (fun p => p.1 = i) c).map (fun p => p.2)

/-- All ways `re` can match a prefix of `s`, as (remaining suffix, captures),
in Python's backtracking preference order.  Zero-width repetitions of a
`star` body are cut (CPython stops repeating on an empty match); `fuel`
bounds the recursion depth and is chosen large enough by `reMatches` that it
is never exhausted. -/
def matchesF (fuel : Nat) (re : RE) (s : List Char) (c : Caps) :
    List (List Char × Caps) :=
  match fuel with
  | 0 => []
  | fuel + 1 =>
    match re with
    | .eps => [(s, c)]
    | .cls p =>
      match s with
      | [] => []
      | x :: xs => if p x then [(xs, c)] else []
    | .seq a b =>
      (matchesF fuel a s c).flatMap (fun r => matchesF fuel b r.1 r.2)
    | .alt a b => matchesF fuel a s c ++ matchesF fuel b s c
    | .star a lz =>
      let conts := (matchesF fuel a s c).flatMap (fun r =>
        if r.1.length < s.length then matchesF fuel (.star a lz) r.1 r.2 else [])
      if lz then (s, c) :: conts else conts ++ [(s, c)]
    | .grp i a =>
      (matchesF fuel a s c).map
        (fun r => (r.1, setCap i (s.take (s.length - r.1.length)) r.2))

/-- Syntactic size of a pattern, for the fuel bound. -/
def reSize : RE → Nat
  | .eps => 1
  | .cls _ => 1
  | .seq a b => reSize a + reSize b + 1
  | .alt a b => reSize a + reSize b + 1
  | .star a _ => reSize a + 1
  | .grp _ a => reSize a + 1

/-- Enough fuel: along any chain of recursive calls the pair
(suffix length, subterm size) strictly decreases lexicographically, so the
depth is below this product. -/
def matchFuel (re : RE) (s : List Char) : Nat :=
  (reSize re + 2) * (s.length + 2)

/-- All matches of `re` against a prefix of `s`, preference-ordered. -/
def reMatches (re : RE) (s : List Char) : List (List Char × Caps) :=
  matchesF (matchFuel re s) re s []

/-- A match object: start offset, end offset, captures. -/
structure PyMatch where
  start : Nat
  stop : Nat
  caps : Caps

/-- Python `m.group(i)` (None when the group did not participate). -/
def PyMatch.group (m : PyMatch) (i : Nat) : Option (List Char) :=
  getCap i m.caps

/-- Python `re.finditer(pattern, s)`: scan left to right, at each offset take the
backtracker's preferred match, continue at its end (advancing at least one
character past an empty match). -/
def finditerAux (re : RE) (s : List Char) (pos fuel : Nat) : List PyMatch :=
  match fuel with
  | 0 => []
  | fuel + 1 =>
    if pos > s.length then []
    else
      let rest := s.drop pos
      match reMatches re rest with
      | [] => finditerAux re s (pos + 1) fuel
      | r :: _ =>
        let stop := pos + (rest.length - r.1.length)
        ⟨pos, stop, r.2⟩ :: finditerAux re s (max stop (pos + 1)) fuel

def finditer (re : RE) (s : List Char) : List PyMatch :=
  finditerAux re s 0 (s.length + 1)

/-- Python `re.search(pattern, s)`: the first match, if any. -/
def reSearch (re : RE) (s : List Char) : Option PyMatch :=
  (finditer re s).head?

/-- Python `re.match(pattern, s)`: anchored at offset 0. -/
def reMatchAt0 (re : RE) (s : List Char) : Option PyMatch :=
  match reMatches re s with
  | [] => none
  | r :: _ => some ⟨0, s.length - r.1.length, r.2⟩

/-! ### Pattern-building helpers -/

def rcat (l : List RE) : RE := l.foldr RE.seq RE.eps

def rlit (s : String) : RE := rcat (s.toList.map (fun ch => RE.cls (fun c => c = ch)))

def rchar (ch : Char) : RE := RE.cls (fun c => c = ch)

/-- Pattern `e?` (greedy). -/
def ropt (e : RE) : RE := RE.alt e RE.eps

/-- Pattern `e+` (greedy). -/
def rplus (e : RE) : RE := RE.seq e (RE.star e false)

/-- Pattern `e*` (greedy). -/
def rstar (e : RE) : RE := RE.star e false

def ralts (l : List RE) : RE := l.foldr RE.alt (RE.cls (fun _ => false))

/-- Pattern `\s`. -/
def rS : RE := RE.cls pyIsSpace

/-- Character class `[^X]` for a single excluded character (Python negated classes match
newlines too). -/
def rnot (ch : Char) : RE := RE.cls (fun c => c ≠ ch)

/-- Pattern `.` (any character except newline). -/
def rdot : RE := RE.cls (fun c => c ≠ '\n')

/-! ## The output record (`app/models/schemas.py`, `CodeSnippet`) -/

structure CodeSnippet where
  name : String
  type : String
  code : String
  language : String
  class_name : Option String
  file_path : Option String
  deriving Repr, DecidableEq

/-! ## `BaseParser` (`app/services/parsers/base_parser.py`) -/

/-- Loop body of `BaseParser.find_closing_brace`: `i` is the current index,
`count` the running brace count (an `Int`: it goes negative on unmatched
closing braces), `found` whether an opening brace has been seen; when the
scan ends without the stop condition the total length is returned. -/
def fcbLoop (cs : List Char) (i : Nat) (count : Int) (found : Bool)
    (total : Nat) : Nat :=
  match cs with
  | [] => total
  | ch :: rest =>
    let found' := if ch = '{' then true else found
    let count' :=
      if ch = '{' then count + 1 else if ch = '}' then count - 1 else count
    if found' ∧ count' = 0 then i + 1 else fcbLoop rest (i + 1) count' found' total

/-- Embedding of `BaseParser.find_closing_brace(code, start_pos)`. -/
def find_closing_brace (code : List Char) (start_pos : Nat) : Nat :=
  fcbLoop (code.drop start_pos) start_pos 0 false code.length

/-- Per-line brace scan of `BaseParser.extract_function_body`: returns the
computed `end_line`. -/
def efbLoop (lines : List (List Char)) (i : Nat) (count : Int) (found : Bool)
    (endLine : Nat) : Nat :=
  match lines with
  | [] => endLine
  | l :: rest =>
    let count' := l.foldl
      (fun a ch => if ch = '{' then a + 1 else if ch = '}' then a - 1 else a) count
    let found' := found || l.any (fun ch => ch = '{')
    if found' ∧ count' = 0 then i else efbLoop rest (i + 1) count' found' i

/-- Embedding of `BaseParser.extract_function_body(code, start_line, end_line)`
(0-indexed lines; `end_line = none` triggers the brace scan). -/
def extract_function_body (code : List Char) (start_line : Nat)
    (end_line : Option Nat) : List Char :=
  let lines := pySplitLines code
  let e :=
    match end_line with
    | some e => e
    | none => efbLoop (lines.drop start_line) start_line 0 false start_line
  pyJoinNL ((lines.drop start_line).take (e + 1 - start_line))

/-! ## `CppParser` (`app/services/parsers/cpp_parser.py`) -/

/-- Character class `[A-Za-z0-9_:]`. -/
def isIdentColon (c : Char) : Bool := isIdentChar c || c = ':'

/-- Pattern `class\s+([A-Za-z0-9_]+)(?:\s*:\s*(?:public|protected|private)\s+[A-Za-z0-9_]+)?\s*\{` -/
def cppClassPattern : RE := rcat [
  rlit "class", rplus rS, RE.grp 1 (rplus (RE.cls isIdentChar)),
  ropt (rcat [rstar rS, rchar ':', rstar rS,
    ralts [rlit "public", rlit "protected", rlit "private"],
    rplus rS, rplus (RE.cls isIdentChar)]),
  rstar rS, rchar '{']

/-- Pattern `(?:[A-Za-z0-9_:]+(?:<[^>]*>)?(?:\s*\*|\s*&)?\s+)?` — the optional
return-type chunk shared by the C++ method and function patterns. -/
def cppRetType : RE := ropt (rcat [
  rplus (RE.cls isIdentColon),
  ropt (rcat [rchar '<', rstar (rnot '>'), rchar '>']),
  ropt (RE.alt (rcat [rstar rS, rchar '*']) (rcat [rstar rS, rchar '&'])),
  rplus rS])

/-- Pattern `(?:virtual\s+)?(?:static\s+)?(?:inline\s+)?(?:explicit\s+)?(?:const\s+)?`
`(?:[A-Za-z0-9_:]+(?:<[^>]*>)?(?:\s*\*|\s*&)?\s+)?([A-Za-z0-9_]+)\s*\([^)]*\)`
`(?:\s*const)?\s*(?:noexcept)?\s*(?:override)?\s*(?:final)?\s*(?:=\s*0)?\s*\{` -/
def cppMethodPattern : RE := rcat [
  ropt (rcat [rlit "virtual", rplus rS]),
  ropt (rcat [rlit "static", rplus rS]),
  ropt (rcat [rlit "inline", rplus rS]),
  ropt (rcat [rlit "explicit", rplus rS]),
  ropt (rcat [rlit "const", rplus rS]),
  cppRetType,
  RE.grp 1 (rplus (RE.cls isIdentChar)),
  rstar rS, rchar '(', rstar (rnot ')'), rchar ')',
  ropt (rcat [rstar rS, rlit "const"]),
  rstar rS, ropt (rlit "noexcept"),
  rstar rS, ropt (rlit "override"),
  rstar rS, ropt (rlit "final"),
  rstar rS, ropt (rcat [rchar '=', rstar rS, rchar '0']),
  rstar rS, rchar '{']

/-- Pattern `(?:static\s+)?(?:inline\s+)?`
`(?:[A-Za-z0-9_:]+(?:<[^>]*>)?(?:\s*\*|\s*&)?\s+)?([A-Za-z0-9_]+)\s*\([^)]*\)`
`(?:\s*const)?\s*(?:noexcept)?\s*\{` -/
def cppFuncPattern : RE := rcat [
  ropt (rcat [rlit "static", rplus rS]),
  ropt (rcat [rlit "inline", rplus rS]),
  cppRetType,
  RE.grp 1 (rplus (RE.cls isIdentChar)),
  rstar rS, rchar '(', rstar (rnot ')'), rchar ')',
  ropt (rcat [rstar rS, rlit "const"]),
  rstar rS, ropt (rlit "noexcept"),
  rstar rS, rchar '{']

/-- Embedding of `m.group(i)` as a `String`; the groups read by the parsers are mandatory
in their patterns, so the `[]` default is never exercised (proved below for
group 1). -/
def capStr (m : PyMatch) (i : Nat) : String := String.mk ((m.group i).getD [])

/-- The `AttributeError` CPython raises when an undefined attribute is
accessed. -/
inductive PyAttributeError where
  | attributeError
  deriving Repr, DecidableEq

/-- Embedding of `self._find_closing_brace` as called by `CppParser.parse_code`
(cpp_parser.py lines 32, 49, 77): no method of that name exists on
`CppParser` or `BaseParser` — the base class defines `find_closing_brace`,
and the file's closing comment says that is the method meant — so every
call raises `AttributeError`. -/
def cpp_find_closing_brace_missing (_code : List Char) (_start_pos : Nat) :
    Except PyAttributeError Nat :=
  .error .attributeError

/-- The class-scanning loop of `CppParser.parse_code` (lines 27-33): each
header match triggers a `self._find_closing_brace` call, which raises. -/
def cpp_class_loop (code : List Char) :
    List PyMatch → Except PyAttributeError (List (Nat × Nat × String))
  | [] => .ok []
  | cm :: rest => do
    let class_end ← cpp_find_closing_brace_missing code cm.start
    let more ← cpp_class_loop code rest
    .ok ((cm.start, class_end, capStr cm 1) :: more)

/-- The per-class method loop of `CppParser.parse_code` (lines 43-59):
constructor-named matches are skipped before the (raising) brace-finder
call. -/
def cpp_method_loop (class_code : List Char) (class_name : String) :
    List PyMatch → Except PyAttributeError (List CodeSnippet)
  | [] => .ok []
  | mm :: rest =>
    if capStr mm 1 = class_name then cpp_method_loop class_code class_name rest
    else do
      let method_end ← cpp_find_closing_brace_missing class_code mm.start
      let more ← cpp_method_loop class_code class_name rest
      .ok (⟨capStr mm 1, "method",
        String.mk (pySlice class_code mm.start method_end), "cpp",
        some class_name, none⟩ :: more)

/-- The outer method pass of `CppParser.parse_code` (lines 36-59), one class
range at a time. -/
def cpp_ranges_loop (code : List Char) :
    List (Nat × Nat × String) → Except PyAttributeError (List CodeSnippet)
  | [] => .ok []
  | cr :: rest => do
    let ms ← cpp_method_loop (pySlice code cr.1 cr.2.1) cr.2.2
      (finditer cppMethodPattern (pySlice code cr.1 cr.2.1))
    let more ← cpp_ranges_loop code rest
    .ok (ms ++ more)

/-- The free-function loop of `CppParser.parse_code` (lines 65-87): matches
inside a recorded class range are skipped, the rest reach the (raising)
brace-finder call. -/
def cpp_func_loop (code : List Char) (class_ranges : List (Nat × Nat × String)) :
    List PyMatch → Except PyAttributeError (List CodeSnippet)
  | [] => .ok []
  | fm :: rest =>
    if class_ranges.any (fun cr => decide (cr.1 ≤ fm.start ∧ fm.start ≤ cr.2.1)) then
      cpp_func_loop code class_ranges rest
    else do
      let func_end ← cpp_find_closing_brace_missing code fm.start
      let more ← cpp_func_loop code class_ranges rest
      .ok (⟨capStr fm 1, "function",
        String.mk (pySlice code fm.start func_end), "cpp", none, none⟩ :: more)

/-- The `try` body of `CppParser.parse_code`: class ranges, then methods per
class, then free functions.  Any `self._find_closing_brace` call aborts it
with `AttributeError`. -/
def cpp_parse_body (code : List Char) :
    Except PyAttributeError (List CodeSnippet) := do
  let class_ranges ← cpp_class_loop code (finditer cppClassPattern code)
  let methodSnips ← cpp_ranges_loop code class_ranges
  let funcSnips ← cpp_func_loop code class_ranges (finditer cppFuncPattern code)
  .ok (methodSnips ++ funcSnips)

/-- Embedding of `CppParser.parse_code` as written: the body raises
`AttributeError` at its first `self._find_closing_brace` call (so on any
input with a class or free-function match), and the blanket
`except Exception` handler returns `[]`. -/
def cpp_parse_code (code : List Char) : List CodeSnippet :=
  match cpp_parse_body code with
  | .ok l => l
  | .error _ => []

/-- The body of `CppParser.parse_code` with its three
`self._find_closing_brace` calls bound instead to the base class's
`find_closing_brace` — the binding the file's own closing comment
(`使用基类的find_closing_brace方法`, "uses the base class's
find_closing_brace method") prescribes.  This is NOT the code as written
(which raises `AttributeError`, see `cpp_parse_code`); it exhibits what the
dead emission logic was meant to produce: class headers with brace-counted
extents, then per class the constructor-filtered methods, then free
functions whose match start lies in no recorded class range. -/
def cpp_parse_code_intended (code : List Char) : List CodeSnippet :=
  let class_matches := finditer cppClassPattern code
  let class_ranges : List (Nat × Nat × String) := class_matches.map (fun m =>
    (m.start, find_closing_brace code m.start, capStr m 1))
  let methodSnips := class_ranges.flatMap (fun cr =>
    let class_code := pySlice code cr.1 cr.2.1
    (finditer cppMethodPattern class_code).filterMap (fun mm =>
      let method_name := capStr mm 1
      if method_name = cr.2.2 then none
      else
        let method_end := find_closing_brace class_code mm.start
        some ⟨method_name, "method",
          String.mk (pySlice class_code mm.start method_end), "cpp",
          some cr.2.2, none⟩))
  let funcSnips := (finditer cppFuncPattern code).filterMap (fun fm =>
    if class_ranges.any (fun cr => decide (cr.1 ≤ fm.start ∧ fm.start ≤ cr.2.1)) then
      none
    else
      let func_end := find_closing_brace code fm.start
      some ⟨capStr fm 1, "function",
        String.mk (pySlice code fm.start func_end), "cpp", none, none⟩)
  methodSnips ++ funcSnips

/-! ## `CSharpParser` (`app/services/parsers/csharp_parser.py`) -/

/-- Pattern `(?:public|private|protected|internal|static)?\s+(?:abstract|sealed)?\s+`
`class\s+([A-Za-z0-9_]+)(?:\s*:\s*[A-Za-z0-9_,\s<>]+)?\s*\{` -/
def csClassPattern : RE := rcat [
  ropt (ralts [rlit "public", rlit "private", rlit "protected",
    rlit "internal", rlit "static"]),
  rplus rS,
  ropt (RE.alt (rlit "abstract") (rlit "sealed")),
  rplus rS,
  rlit "class", rplus rS, RE.grp 1 (rplus (RE.cls isIdentChar)),
  ropt (rcat [rstar rS, rchar ':',
    rplus (RE.cls (fun c => isIdentChar c || c = ',' || pyIsSpace c || c = '<' || c = '>'))]),
  rstar rS, rchar '{']

/-- Character class `[A-Za-z0-9_<>[\],\s]`. -/
def csTypeChar (c : Char) : Bool :=
  isIdentChar c || c = '<' || c = '>' || c = '[' || c = ']' || c = ',' || pyIsSpace c

/-- The shared tail of the C# method/function patterns:
`\s+(?:[A-Za-z0-9_<>[\],\s]+)\s+([A-Za-z0-9_]+)\s*\([^)]*\)(?:\s*where\s+[^{]+)?\s*\{` -/
def csSignatureTail : RE := rcat [
  rplus rS,
  rplus (RE.cls csTypeChar),
  rplus rS,
  RE.grp 1 (rplus (RE.cls isIdentChar)),
  rstar rS, rchar '(', rstar (rnot ')'), rchar ')',
  ropt (rcat [rstar rS, rlit "where", rplus rS, rplus (rnot '{')]),
  rstar rS, rchar '{']

/-- Pattern `(?:public|private|protected|internal|static|virtual|override|abstract|sealed|async)`
`(?:\s+(?:public|private|protected|internal|static|virtual|override|abstract|sealed|async))*`
followed by `csSignatureTail`. -/
def csMethodPattern : RE :=
  let kw := ralts [rlit "public", rlit "private", rlit "protected",
    rlit "internal", rlit "static", rlit "virtual", rlit "override",
    rlit "abstract", rlit "sealed", rlit "async"]
  rcat [kw, rstar (rcat [rplus rS, kw]), csSignatureTail]

/-- Pattern `(?:public|private|protected|internal|static|async)`
`(?:\s+(?:public|private|protected|internal|static|async))*`
followed by `csSignatureTail`. -/
def csFuncPattern : RE :=
  let kw := ralts [rlit "public", rlit "private", rlit "protected",
    rlit "internal", rlit "static", rlit "async"]
  rcat [kw, rstar (rcat [rplus rS, kw]), csSignatureTail]

/-- The inline brace scan repeated three times inside
`CSharpParser.parse_code` (class end, method end, function end): starting at
`from`, count `{` up and `}` down, and stop one past the `}` that brings the
count to zero right after a decrement; if the scan completes instead, the
initial value `init` is kept. -/
def csBraceLoop (cs : List Char) (j : Nat) (count : Int) (init : Nat) : Nat :=
  match cs with
  | [] => init
  | ch :: rest =>
    if ch = '{' then csBraceLoop rest (j + 1) (count + 1) init
    else if ch = '}' then
      if count - 1 = 0 then j + 1 else csBraceLoop rest (j + 1) (count - 1) init
    else csBraceLoop rest (j + 1) count init

def csBraceEnd (code : List Char) (start : Nat) : Nat :=
  csBraceLoop (code.drop start) start 0 start

/-- The brace-counted class spans of `CSharpParser.parse_code`
(header match start to the scanned class end) — the `ClassSpan`s of the
specification. -/
def cs_class_spans (code : List Char) : List (Nat × Nat) :=
  (finditer csClassPattern code).map (fun m => (m.start, csBraceEnd code m.start))

/-- The header-only ranges `(m.start(), m.end())` that the free-function
pass of `CSharpParser.parse_code` actually uses for its in-class test. -/
def cs_header_ranges (code : List Char) : List (Nat × Nat) :=
  (finditer csClassPattern code).map (fun m => (m.start, m.stop))

/-- The free-function pass of `CSharpParser.parse_code`, kept together with
each emitted snippet's match start offset. -/
def cs_functions_with_starts (code : List Char) : List (CodeSnippet × Nat) :=
  (finditer csFuncPattern code).filterMap (fun fm =>
    if (cs_header_ranges code).any
        (fun r => decide (r.1 ≤ fm.start ∧ fm.start ≤ r.2)) then none
    else
      let func_end := csBraceEnd code fm.start
      some (⟨capStr fm 1, "function",
        String.mk (pySlice code fm.start func_end), "csharp", none, none⟩,
        fm.start))

/-- Embedding of `CSharpParser.parse_code`: per class-header match, the brace-counted
class body is search for methods (skipping those named like the class); then
free functions are emitted for matches outside the *header* ranges. -/
def csharp_parse_code (code : List Char) : List CodeSnippet :=
  let class_matches := finditer csClassPattern code
  let methodSnips := class_matches.flatMap (fun cm =>
    let class_name := capStr cm 1
    let class_end := csBraceEnd code cm.start
    let class_code := pySlice code cm.start class_end
    (finditer csMethodPattern class_code).filterMap (fun mm =>
      let method_name := capStr mm 1
      if method_name = class_name then none
      else
        let method_end := csBraceEnd class_code mm.start
        some ⟨method_name, "method",
          String.mk (pySlice class_code mm.start method_end), "csharp",
          some class_name, none⟩))
  methodSnips ++ (cs_functions_with_starts code).map Prod.fst

/-! ## `GoParser` (`app/services/parsers/go_parser.py`) -/

/-- Pattern `\s*func\s+` (used with `re.match`, i.e. anchored). -/
def goFuncStartPattern : RE := rcat [rstar rS, rlit "func", rplus rS]

/-- Pattern `func\s+(?:\(([^)]+)\)\s+)?([A-Za-z0-9_]+)` (used with `re.search`). -/
def goSigPattern : RE := rcat [
  rlit "func", rplus rS,
  ropt (rcat [rchar '(', RE.grp 1 (rplus (rnot ')')), rchar ')', rplus rS]),
  RE.grp 2 (rplus (RE.cls isIdentChar))]

/-- Pattern `\s*\w+\s+\*?([A-Za-z0-9_]+)` (used with `re.search` on the receiver). -/
def goRecvPattern : RE := rcat [
  rstar rS, rplus (RE.cls pyIsWord), rplus rS, ropt (rchar '*'),
  RE.grp 1 (rplus (RE.cls isIdentChar))]

/-- The per-function end scan of `GoParser.parse_code`: from line `j` on,
fold the brace count over each line; a line leaving the count positive
records itself as `func_end`, and a line containing `{` that leaves the
count at zero ends the scan. -/
def goEndLoop (ls : List (List Char)) (j : Nat) (count : Int) (fe : Nat) : Nat :=
  match ls with
  | [] => fe
  | l :: rest =>
    let count' := l.foldl
      (fun a ch => if ch = '{' then a + 1 else if ch = '}' then a - 1 else a) count
    let fe' := if count' > 0 then j else fe
    if count' = 0 ∧ l.any (fun ch => ch = '{') then j
    else goEndLoop rest (j + 1) count' fe'

/-- The `while i < len(lines)` loop of `GoParser.parse_code`.  Each
iteration advances `i` by at least one, so `fuel = lines.length` never runs
out. -/
def goLoop (lines : List (List Char)) (i fuel : Nat) : List CodeSnippet :=
  match fuel with
  | 0 => []
  | fuel + 1 =>
    if h : i < lines.length then
      let line := lines.get ⟨i, h⟩
      match reMatchAt0 goFuncStartPattern line with
      | none => goLoop lines (i + 1) fuel
      | some _ =>
        let nameRecv : Option String × String :=
          match reSearch goSigPattern line with
          | none => (none, "")
          | some m =>
            let fname := capStr m 2
            match m.group 1 with
            | none => (none, fname)
            | some recv =>
              match reSearch goRecvPattern recv with
              | none => (none, fname)
              | some rm => (some (capStr rm 1), fname)
        let func_end := goEndLoop (lines.drop i) i 0 i
        let func_code := pyJoinNL ((lines.drop i).take (func_end + 1 - i))
        ⟨nameRecv.2, if nameRecv.1.isSome then "method" else "function",
          String.mk func_code, "go", nameRecv.1, none⟩ ::
          goLoop lines (func_end + 1) fuel
    else []

/-- Embedding of `GoParser.parse_code`. -/
def go_parse_code (code : List Char) : List CodeSnippet :=
  let lines := pySplitLines code
  goLoop lines 0 lines.length

/-! ## `PythonParser` (`app/services/parsers/python_parser.py`) -/

/-- Pattern `def\s+([a-zA-Z_][a-zA-Z0-9_]*)\s*\(([^)]*)\)(?:\s*->.*?)?:` -/
def pyFuncPattern : RE := rcat [
  rlit "def", rplus rS,
  RE.grp 1 (rcat [RE.cls isAlphaUnd, rstar (RE.cls isIdentChar)]),
  rstar rS, rchar '(', RE.grp 2 (rstar (rnot ')')), rchar ')',
  ropt (rcat [rstar rS, rlit "->", RE.star rdot true]),
  rchar ':']

/-- Pattern `^(\s+)` (used with `re.match`). -/
def pyIndentPattern : RE := RE.grp 1 (rplus rS)

/-- Python `lines[line_no].strip().startswith('#')`. -/
def isCommentLine (l : List Char) : Bool :=
  match pyStrip l with
  | '#' :: _ => true
  | _ => false

/-- Python `current_indent` of `_parse_with_regex`: the length of the `^(\s+)`
match, or 0 when the line starts with a non-space. -/
def currentIndentOf (l : List Char) : Nat :=
  match reMatchAt0 pyIndentPattern l with
  | some im => ((im.group 1).getD []).length
  | none => 0

/-- The body-scanning `while` loop of `PythonParser._parse_with_regex`:
blank and comment lines are consumed, a line indented strictly more than the
reference `indent` (or any line when `indent` is `None`) is consumed, and
the first other line stops the scan; `fel` is the running `func_end_line`.
`line_no` grows by one per step, so `fuel = lines.length + 1` suffices. -/
def pyFallbackLoop (lines : List (List Char)) (indent : Option Nat)
    (line_no fel fuel : Nat) : Nat :=
  match fuel with
  | 0 => fel
  | fuel + 1 =>
    if h : line_no < lines.length then
      let l := lines.get ⟨line_no, h⟩
      if (pyStrip l).isEmpty || isCommentLine l then
        pyFallbackLoop lines indent (line_no + 1) (line_no + 1) fuel
      else
        let ci := currentIndentOf l
        match indent with
        | none => pyFallbackLoop lines indent (line_no + 1) (line_no + 1) fuel
        | some ind =>
          if ci > ind then pyFallbackLoop lines indent (line_no + 1) (line_no + 1) fuel
          else fel
    else fel

/-- Embedding of `PythonParser._parse_with_regex` (with the default `file_path=None`). -/
def python_parse_with_regex (code : List Char) : List CodeSnippet :=
  (finditer pyFuncPattern code).map (fun m =>
    let func_start := m.start
    let lines := pySplitLines code
    let line_no0 := countNLBefore code func_start
    let fel :=
      if line_no0 + 1 < lines.length then
        let first_line := lines.get! (line_no0 + 1)
        let indent : Option Nat :=
          match reMatchAt0 pyIndentPattern first_line with
          | some im => some ((im.group 1).getD []).length
          | none => none
        pyFallbackLoop lines indent (line_no0 + 1) line_no0 (lines.length + 1)
      else line_no0
    let func_code := pyJoinNL ((lines.drop line_no0).take (fel - line_no0))
    ⟨capStr m 1, "function", String.mk func_code, "python", none, none⟩)

/-! ### A model of the external grammar parser (`ast.parse`)

`ast` is the Python standard library, not part of this repository; per the
specification it must expose a tree of function/class declaration nodes
with 1-indexed inclusive start/end line numbers, or signal a parse failure
on malformed source. -/

/-- A parse-failure signal of an external grammar parser. -/
inductive ParseFailed where
  | parseFailed
  deriving Repr, DecidableEq

/-- Tree nodes exposed by the modelled grammar parser.  Line numbers are
1-indexed and inclusive, as `ast` provides via `lineno`/`end_lineno`. -/
inductive PyNode where
  | functionDef (name : String) (lineno endLineno : Nat)
  | classDef (name : String) (lineno endLineno : Nat) (body : List PyNode)
  | stmt
  deriving Repr

/-- Leading-space count of a line (the model treats only spaces as
indentation). -/
def lineIndent (l : List Char) : Nat := (l.takeWhile (fun c => c = ' ')).length

/-- Simple identifier scanner for the grammar-parser model. -/
def scanIdent (l : List Char) : Option (List Char × List Char) :=
  match l with
  | c :: _ =>
    if isAlphaUnd c then
      some (l.takeWhile isIdentChar, l.dropWhile isIdentChar)
    else none
  | [] => none

/-- Grammar-parser model: recognise `def NAME ( ... ) ... :` on a stripped
line, returning the name and whether a statement follows the colon on the
same line. -/
def parseDefHeader (l : List Char) : Option (String × Bool) :=
  let s := pyStrip l
  match s with
  | 'd' :: 'e' :: 'f' :: ' ' :: rest =>
    match scanIdent (rest.dropWhile (fun c => c = ' ')) with
    | none => none
    | some (name, rest1) =>
      let rest2 := rest1.dropWhile (fun c => c = ' ')
      match rest2 with
      | '(' :: rest3 =>
        let afterArgs := rest3.dropWhile (fun c => c ≠ ')')
        match afterArgs with
        | ')' :: rest4 =>
          let afterColon := rest4.dropWhile (fun c => c ≠ ':')
          match afterColon with
          | ':' :: tail => some (String.mk name, ¬(pyStrip tail).isEmpty)
          | _ => none
        | _ => none
      | _ => none
  | _ => none

/-- Grammar-parser model: recognise `class NAME ... :` on a stripped line. -/
def parseClassHeader (l : List Char) : Option String :=
  let s := pyStrip l
  match s with
  | 'c' :: 'l' :: 'a' :: 's' :: 's' :: ' ' :: rest =>
    match scanIdent (rest.dropWhile (fun c => c = ' ')) with
    | none => none
    | some (name, rest1) =>
      if (rest1.dropWhile (fun c => c ≠ ':')).head? = some ':' then
        some (String.mk name)
      else none
  | _ => none

/-- Grammar-parser model: a line acceptable as a simple statement (first
character of the stripped line is an identifier character or a decorator,
string or import-like construct is not distinguished — the model only
needs to reject lines such as a stray `)`). -/
def isSimpleStmtLine (l : List Char) : Bool :=
  match pyStrip l with
  | c :: _ => isIdentChar c
  | [] => false

/-- Worker for `blockRunEnd`; `i` grows by one per step, so
`fuel = lines.length` suffices. -/
def blockRunEndAux (lines : List (List Char)) (minIndent i fuel : Nat) : Nat :=
  match fuel with
  | 0 => i
  | fuel + 1 =>
    if hi : i < lines.length then
      let l := lines.get ⟨i, hi⟩
      if (pyStrip l).isEmpty || minIndent < lineIndent l then
        blockRunEndAux lines minIndent (i + 1) fuel
      else i
    else i

/-- Extent of an indented block: the run of following lines that are blank
or indented strictly more than `minIndent`; returns the index one past the
run. -/
def blockRunEnd (lines : List (List Char)) (i minIndent : Nat) : Nat :=
  blockRunEndAux lines minIndent i lines.length

/-- Index (0-based) of the last non-blank line in `lines[start:stop]`, or
`none`. -/
def lastNonBlank (lines : List (List Char)) (start stop : Nat) : Option Nat :=
  ((List.range' start (stop - start)).filter
    (fun j => ¬(pyStrip (lines.getD j [])).isEmpty)).getLast?

/-- Grammar-parser model: the member nodes of a class body
(`lines[i:stop]`), recognising `def` headers at the body's own indentation
level. -/
def astClassBody (lines : List (List Char)) (i stop baseIndent fuel : Nat) :
    Except ParseFailed (List PyNode) :=
  match fuel with
  | 0 => .ok []
  | fuel + 1 =>
    if i ≥ stop then .ok []
    else
      let l := lines.getD i []
      if (pyStrip l).isEmpty then astClassBody lines (i + 1) stop baseIndent fuel
      else if lineIndent l > baseIndent then
        astClassBody lines (i + 1) stop baseIndent fuel
      else
        match parseDefHeader l with
        | some (name, inlineBody) =>
          if inlineBody then do
            let rest ← astClassBody lines (i + 1) stop baseIndent fuel
            .ok (.functionDef name (i + 1) (i + 1) :: rest)
          else
            let runEnd := min (blockRunEnd lines (i + 1) baseIndent) stop
            match lastNonBlank lines (i + 1) runEnd with
            | none => .error .parseFailed
            | some lastIdx => do
              let rest ← astClassBody lines runEnd stop baseIndent fuel
              .ok (.functionDef name (i + 1) (lastIdx + 1) :: rest)
        | none =>
          if isSimpleStmtLine l ∨ isCommentLine l then do
            let rest ← astClassBody lines (i + 1) stop baseIndent fuel
            .ok (.stmt :: rest)
          else .error .parseFailed

/-- Grammar-parser model: top-level items. -/
def astTopLevel (lines : List (List Char)) (i fuel : Nat) :
    Except ParseFailed (List PyNode) :=
  match fuel with
  | 0 => .ok []
  | fuel + 1 =>
    if hi : i < lines.length then
      let l := lines.get ⟨i, hi⟩
      if (pyStrip l).isEmpty || isCommentLine l then astTopLevel lines (i + 1) fuel
      else if lineIndent l > 0 then .error .parseFailed
      else
        match parseDefHeader l with
        | some (name, inlineBody) =>
          if inlineBody then do
            let rest ← astTopLevel lines (i + 1) fuel
            .ok (.functionDef name (i + 1) (i + 1) :: rest)
          else
            let runEnd := blockRunEnd lines (i + 1) 0
            match lastNonBlank lines (i + 1) runEnd with
            | none => .error .parseFailed
            | some lastIdx => do
              let rest ← astTopLevel lines runEnd fuel
              .ok (.functionDef name (i + 1) (lastIdx + 1) :: rest)
        | none =>
          match parseClassHeader l with
          | some cname =>
            let runEnd := blockRunEnd lines (i + 1) 0
            match lastNonBlank lines (i + 1) runEnd with
            | none => .error .parseFailed
            | some lastIdx =>
              let baseIndent :=
                lineIndent (lines.getD ((List.range' (i + 1) (runEnd - (i + 1))).find?
                  (fun j => ¬(pyStrip (lines.getD j [])).isEmpty) |>.getD (i + 1)) [])
              do
                let body ← astClassBody lines (i + 1) runEnd baseIndent
                  (runEnd - i + 1)
                let rest ← astTopLevel lines runEnd fuel
                .ok (.classDef cname (i + 1) (lastIdx + 1) body :: rest)
          | none =>
            if isSimpleStmtLine l then do
              let rest ← astTopLevel lines (i + 1) fuel
              .ok (.stmt :: rest)
            else .error .parseFailed
    else .ok []

/-- Modelled from the spec: `ast.parse` — the external grammar parser for
Python (standard library, not part of this repository) — "must expose a
tree with function/class nodes and 1-indexed inclusive start/end line
numbers, or signal a parse failure" (§6, §4.2).  Modelled as a line-based
block parser over indentation. -/
def astParse (code : List Char) : Except ParseFailed (List PyNode) :=
  let lines := pySplitLines code
  astTopLevel lines 0 (lines.length + 1)

/-- Python `try/except`: run the body; on an exception run the handler. -/
def pyTry {ε α : Type} (body : Except ε α) (handler : ε → Except ε α) :
    Except ε α :=
  match body with
  | .ok a => .ok a
  | .error e => handler e

/-- The two tree walks of `PythonParser.parse_code`: all top-level
`FunctionDef` children first, then the direct `FunctionDef` children of
each top-level `ClassDef`. -/
def pyAstSnippets (code : List Char) (tree : List PyNode) : List CodeSnippet :=
  let lines := pySplitLines code
  let funcs := tree.filterMap (fun n =>
    match n with
    | .functionDef name lineno endLineno =>
      some ⟨name, "function",
        String.mk (pyJoinNL ((lines.drop (lineno - 1)).take (endLineno - (lineno - 1)))),
        "python", none, none⟩
    | _ => none)
  let methods := tree.flatMap (fun n =>
    match n with
    | .classDef cname _ _ body =>
      body.filterMap (fun ch =>
        match ch with
        | .functionDef name lineno endLineno =>
          some ⟨name, "method",
            String.mk (pyJoinNL ((lines.drop (lineno - 1)).take (endLineno - (lineno - 1)))),
            "python", some cname, none⟩
        | _ => none)
    | _ => [])
  funcs ++ methods

/-- Embedding of `PythonParser.parse_code` (with the default `file_path=None`).  The
grammar parse may raise; the inner `except SyntaxError` applies
`_try_fix_syntax`, which returns its argument unchanged, and therefore
always re-raises; the outer handler falls back to `_parse_with_regex`
(itself guarded by a `try` whose handler returns `[]`). -/
def python_parse_code (code : List Char) :
    Except ParseFailed (List CodeSnippet) :=
  pyTry
    (do
      if (pyStrip code).isEmpty then pure []
      else do
        let tree ← astParse code
        let snips := pyAstSnippets code tree
        if snips.isEmpty then pure (python_parse_with_regex code)
        else pure snips)
    (fun _ => pyTry (pure (python_parse_with_regex code)) (fun _ => pure []))

/-! ## `JavaParser` (`app/services/parsers/java_parser.py`) -/

/-- A method node exposed by the modelled `javalang` grammar parser;
`position` can be absent on a node. -/
structure JavaMethod where
  name : String
  posLine : Option Nat
  deriving Repr, DecidableEq

structure JavaClass where
  name : String
  methods : List JavaMethod
  deriving Repr, DecidableEq

/-- Model pattern for a method declaration inside a class body:
one or more `word+` tokens (modifiers/return type), then the name and a
parenthesised parameter list followed by `{`. -/
def javaMethodModelPattern : RE := rcat [
  rplus (rcat [rplus (RE.cls pyIsWord), rplus rS]),
  RE.grp 1 (rplus (RE.cls pyIsWord)),
  rstar rS, rchar '(', rstar (rnot ')'), rchar ')',
  rstar rS, rchar '{']

/-- Nesting-aware closing-brace search for the `javalang` model: offset one
past the brace matching an already-seen `{`, or `none` when unbalanced. -/
def javaCloseLoop (cs : List Char) (j : Nat) (depth : Nat) : Option Nat :=
  match cs with
  | [] => none
  | ch :: rest =>
    if ch = '{' then javaCloseLoop rest (j + 1) (depth + 1)
    else if ch = '}' then
      if depth = 1 then some (j + 1) else javaCloseLoop rest (j + 1) (depth - 1)
    else javaCloseLoop rest (j + 1) depth

/-- Modelled from the spec: `javalang.parse.parse` — the external grammar
parser for Java (third-party library, not part of this repository) — "must
expose a tree with function/class nodes and 1-indexed inclusive start/end
line numbers, or signal a parse failure" (§6, §4.2).  Modelled as: a
compilation unit is a sequence of `[modifiers] class NAME { ... }`
declarations; method nodes carry the 1-indexed line of their declaration;
anything else is a parse failure. -/
def javalangParseAux (code : List Char) (pos fuel : Nat) :
    Except ParseFailed (List JavaClass) :=
  match fuel with
  | 0 => .error .parseFailed
  | fuel + 1 =>
    let rest := (code.drop pos).dropWhile pyIsSpace
    let pos := pos + ((code.drop pos).takeWhile pyIsSpace).length
    match rest with
    | [] => .ok []
    | _ =>
      match rest with
      | 'p' :: 'u' :: 'b' :: 'l' :: 'i' :: 'c' :: ' ' :: _ =>
        javalangParseAux code (pos + 7) fuel
      | 'f' :: 'i' :: 'n' :: 'a' :: 'l' :: ' ' :: _ =>
        javalangParseAux code (pos + 6) fuel
      | 'a' :: 'b' :: 's' :: 't' :: 'r' :: 'a' :: 'c' :: 't' :: ' ' :: _ =>
        javalangParseAux code (pos + 9) fuel
      | 'c' :: 'l' :: 'a' :: 's' :: 's' :: ' ' :: afterKw =>
        match scanIdent (afterKw.dropWhile (fun c => c = ' ')) with
        | none => .error .parseFailed
        | some (name, afterName) =>
          match afterName.dropWhile pyIsSpace with
          | '{' :: _ =>
            let bracePos := pos + (rest.length - (afterName.dropWhile pyIsSpace).length)
            match javaCloseLoop (code.drop bracePos) bracePos 0 with
            | none => .error .parseFailed
            | some closeEnd =>
              let body := pySlice code (bracePos + 1) (closeEnd - 1)
              let methods := (finditer javaMethodModelPattern body).map (fun m =>
                ⟨capStr m 1,
                  some (1 + countNLBefore code (bracePos + 1 + m.start))⟩)
              do
                let more ← javalangParseAux code closeEnd fuel
                .ok (⟨String.mk name, methods⟩ :: more)
          | _ => .error .parseFailed
      | _ => .error .parseFailed

def javalangParse (code : List Char) : Except ParseFailed (List JavaClass) :=
  javalangParseAux code 0 (code.length + 1)

/-- Embedding of `JavaParser.extract_method_code`: empty string when the node has no
position, else `extract_function_body` from the 0-indexed start line. -/
def java_extract_method_code (code : List Char) (m : JavaMethod) : List Char :=
  match m.posLine with
  | none => []
  | some line => extract_function_body code (line - 1) none

/-- Embedding of `JavaParser.parse_code`: the grammar parse may raise; the handler
returns a plain empty list. -/
def java_parse_code (code : List Char) : Except ParseFailed (List CodeSnippet) :=
  pyTry
    (do
      let tree ← javalangParse code
      pure (tree.flatMap (fun cl => cl.methods.map (fun m =>
        ⟨m.name, "method", String.mk (java_extract_method_code code m),
          "java", some cl.name, none⟩))))
    (fun _ => pure [])

/-! ## Reference notions for the brace-counting claims -/

/-- Net brace contribution of a character run, counted exactly as the loops
of the parsers count: `{` is +1, `}` is −1. -/
def braceBalanceFrom (init : Int) (l : List Char) : Int :=
  l.foldl (fun a ch => if ch = '{' then a + 1 else if ch = '}' then a - 1 else a) init

def braceBalance (l : List Char) : Int := braceBalanceFrom 0 l

/-- Whether a character run contains an opening brace. -/
def hasOpen (l : List Char) : Bool := l.any (fun c => c = '{')

/-- Stop condition of `find_closing_brace` after scanning `j + 1` characters
from `p`: an opening brace has occurred in the scanned segment and its net
brace balance (closing braces counted even before the first opening brace)
is zero. -/
def fcbStop (code : List Char) (p : Nat) (j : Nat) : Bool :=
  hasOpen ((code.drop p).take (j + 1)) &&
    decide (braceBalance ((code.drop p).take (j + 1)) = 0)

/-- Counting phase of the algorithm exactly as the claim describes the
Brace Counting primitive: after the first `{`, increment on `{` and
decrement on `}`, and return one past the character at which the counter
returns to zero. -/
def claimCount (cs : List Char) (i : Nat) (cnt : Int) (total : Nat) : Nat :=
  match cs with
  | [] => total
  | ch :: rest =>
    let cnt' := if ch = '{' then cnt + 1 else if ch = '}' then cnt - 1 else cnt
    if cnt' = 0 then i + 1 else claimCount rest (i + 1) cnt' total

/-- Seeking phase of the claimed algorithm: ignore every character
(including `}`) until the first `{`. -/
def claimSeek (cs : List Char) (i : Nat) (total : Nat) : Nat :=
  match cs with
  | [] => total
  | ch :: rest =>
    if ch = '{' then claimCount rest (i + 1) 1 total else claimSeek rest (i + 1) total

/-- The Brace Counting primitive as the claim words it (ignore everything
before the first `{`, then pure nested counting; text length when
unbalanced). -/
def claimBraceFind (code : List Char) (p : Nat) : Nat :=
  claimSeek (code.drop p) p code.length

/-! ## Syntactic predicates on patterns, for the capture-group lemmas -/

/-- Whether a pattern can match the empty string. -/
def nullable : RE → Bool
  | .eps => true
  | .cls _ => false
  | .seq a b => nullable a && nullable b
  | .alt a b => nullable a || nullable b
  | .star _ _ => true
  | .grp _ a => nullable a

/-- Whether every successful match of the pattern necessarily assigns
capture group `i`. -/
def mustCap : RE → Nat → Bool
  | .eps, _ => false
  | .cls _, _ => false
  | .seq a b, i => mustCap a i || mustCap b i
  | .alt a b, i => mustCap a i && mustCap b i
  | .star _ _, _ => false
  | .grp j a, i => (j == i) || mustCap a i

/-- Whether every occurrence of capture group `i` in the pattern has a body
that cannot match the empty string (so the group can only be assigned a
non-empty text). -/
def gnnAt : RE → Nat → Bool
  | .eps, _ => true
  | .cls _, _ => true
  | .seq a b, i => gnnAt a i && gnnAt b i
  | .alt a b, i => gnnAt a i && gnnAt b i
  | .star a _, i => gnnAt a i
  | .grp j a, i => (!(j == i) || !nullable a) && gnnAt a i

/-- The join of lines `a .. a+n-1` (0-indexed) of a source text — the shape
every line-aligned snippet text must have. -/
def lineRangeJoin (code : List Char) (a n : Nat) : String :=
  String.mk (pyJoinNL (((pySplitLines code).drop a).take n))

/-! ## Lemmas: the brace-counting primitive -/

theorem braceBalanceFrom_eq (init : Int) (l : List Char) :
    braceBalanceFrom init l = init + braceBalance l := by
  induction l generalizing init with
  | nil => simp [braceBalanceFrom, braceBalance]
  | cons ch t ih =>
    have h1 : braceBalanceFrom init (ch :: t) =
        braceBalanceFrom
          (if ch = '{' then init + 1 else if ch = '}' then init - 1 else init) t := rfl
    have h2 : braceBalance (ch :: t) =
        braceBalanceFrom
          (if ch = '{' then (0 : Int) + 1 else if ch = '}' then (0 : Int) - 1 else 0) t := rfl
    rw [h1, h2, ih, ih]
    split_ifs <;> omega

theorem braceBalance_cons (ch : Char) (t : List Char) :
    braceBalance (ch :: t) =
      (if ch = '{' then 1 else if ch = '}' then -1 else 0) + braceBalance t := by
  have h : braceBalance (ch :: t) =
      braceBalanceFrom (if ch = '{' then 0 + 1 else if ch = '}' then 0 - 1 else 0) t := rfl
  rw [h, braceBalanceFrom_eq]
  split_ifs <;> omega

theorem hasOpen_cons (ch : Char) (t : List Char) :
    hasOpen (ch :: t) = (decide (ch = '{') || hasOpen t) := by
  simp [hasOpen]

/-- Characterisation of the `find_closing_brace` loop: the result is
`i + j + 1` for the first index `j` whose scanned prefix satisfies the stop
condition, and the fallback value otherwise. -/
theorem fcbLoop_eq (cs : List Char) (i : Nat) (cnt : Int) (fnd : Bool)
    (total : Nat) :
    fcbLoop cs i cnt fnd total =
      match (List.range cs.length).find? (fun j =>
          (fnd || hasOpen (cs.take (j + 1))) &&
          decide (cnt + braceBalance (cs.take (j + 1)) = 0)) with
      | some j => i + j + 1
      | none => total := by
  induction cs generalizing i cnt fnd with
  | nil => simp [fcbLoop]
  | cons ch rest ih =>
    have hP0 : ((fnd || hasOpen ((ch :: rest).take (0 + 1))) &&
        decide (cnt + braceBalance ((ch :: rest).take (0 + 1)) = 0)) =
        ((if ch = '{' then true else fnd) &&
         decide ((if ch = '{' then cnt + 1 else if ch = '}' then cnt - 1 else cnt) = 0)) := by
      simp only [List.take_succ_cons, List.take_zero, hasOpen_cons, braceBalance_cons]
      have hbe : braceBalance ([] : List Char) = 0 := rfl
      have hoe : hasOpen ([] : List Char) = false := rfl
      rw [hbe, hoe]
      by_cases h1 : ch = '{'
      · simp [h1]
      · by_cases h2 : ch = '}' <;> simp [h1, h2, sub_eq_add_neg]
    have hshift : ∀ j : Nat,
        ((fnd || hasOpen ((ch :: rest).take (j + 1 + 1))) &&
         decide (cnt + braceBalance ((ch :: rest).take (j + 1 + 1)) = 0)) =
        (((if ch = '{' then true else fnd) || hasOpen (rest.take (j + 1))) &&
         decide ((if ch = '{' then cnt + 1 else if ch = '}' then cnt - 1 else cnt) +
           braceBalance (rest.take (j + 1)) = 0)) := by
      intro j
      simp only [List.take_succ_cons, hasOpen_cons, braceBalance_cons]
      by_cases h1 : ch = '{'
      · simp [h1, add_assoc]
      · by_cases h2 : ch = '}' <;>
          simp [h1, h2, sub_eq_add_neg, add_assoc]
    simp only [fcbLoop]
    rw [List.length_cons, List.range_succ_eq_map, List.find?_cons]
    by_cases hstop : ((if ch = '{' then true else fnd) = true ∧
        (if ch = '{' then cnt + 1 else if ch = '}' then cnt - 1 else cnt) = 0)
    · have : ((fnd || hasOpen ((ch :: rest).take (0 + 1))) &&
          decide (cnt + braceBalance ((ch :: rest).take (0 + 1)) = 0)) = true := by
        rw [hP0]
        simp only [Bool.and_eq_true, decide_eq_true_eq]
        exact ⟨hstop.1, hstop.2⟩
      simp only [if_pos hstop, this]
    · have : ((fnd || hasOpen ((ch :: rest).take (0 + 1))) &&
          decide (cnt + braceBalance ((ch :: rest).take (0 + 1)) = 0)) = false := by
        rw [hP0]
        simp only [Bool.and_eq_false_iff]
        by_cases ha : (if ch = '{' then true else fnd) = true
        · right
          simp only [decide_eq_false_iff_not]
          intro hc
          exact hstop ⟨ha, hc⟩
        · left
          simpa using ha
      simp only [if_neg hstop, this]
      rw [ih (i + 1)]
      rw [List.find?_map]
      have hpred : ((fun j => (fnd || hasOpen ((ch :: rest).take (j + 1))) &&
            decide (cnt + braceBalance ((ch :: rest).take (j + 1)) = 0)) ∘ Nat.succ) =
          (fun j => (((if ch = '{' then true else fnd) || hasOpen (rest.take (j + 1))) &&
            decide ((if ch = '{' then cnt + 1 else if ch = '}' then cnt - 1 else cnt) +
              braceBalance (rest.take (j + 1)) = 0))) := by
        funext j
        simpa [Function.comp, Nat.succ_eq_add_one] using hshift j
      rw [hpred]
      cases hfind : (List.range rest.length).find? (fun j =>
          (((if ch = '{' then true else fnd) || hasOpen (rest.take (j + 1))) &&
           decide ((if ch = '{' then cnt + 1 else if ch = '}' then cnt - 1 else cnt) +
             braceBalance (rest.take (j + 1)) = 0))) with
      | none => simp
      | some j => simp [Nat.succ_eq_add_one]; omega

/-- The function `find_closing_brace` in closed form: one past the first index whose
scanned segment has seen an opening brace and has net balance zero, or the
text length when there is no such index. -/
theorem find_closing_brace_eq (code : List Char) (p : Nat) :
    find_closing_brace code p =
      match (List.range (code.drop p).length).find? (fcbStop code p) with
      | some j => p + j + 1
      | none => code.length := by
  unfold find_closing_brace
  rw [fcbLoop_eq]
  have hpred : (fun j => (false || hasOpen ((code.drop p).take (j + 1))) &&
      decide ((0 : Int) + braceBalance ((code.drop p).take (j + 1)) = 0)) =
      fcbStop code p := by
    funext j
    simp [fcbStop]
  rw [hpred]

theorem find_closing_brace_le (code : List Char) (p : Nat) :
    find_closing_brace code p ≤ code.length := by
  rw [find_closing_brace_eq]
  cases hfind : (List.range (code.drop p).length).find? (fcbStop code p) with
  | none => simp
  | some j =>
    have hj : j ∈ List.range (code.drop p).length := List.mem_of_find?_eq_some hfind
    rw [List.mem_range] at hj
    have hlen : (code.drop p).length = code.length - p := List.length_drop ..
    show p + j + 1 ≤ code.length
    omega

/-! ## Lemmas: the backtracking matcher and its capture groups -/

theorem getCap_setCap (i j : Nat) (v : List Char) (c : Caps) :
    getCap i (setCap j v c) = if j = i then some v else getCap i c := by
  by_cases h : j = i <;> simp [getCap, setCap, List.find?_cons, h]

/-- Matching never lengthens the remaining suffix, and a pattern that cannot
match the empty string consumes at least one character. -/
theorem matchesF_length (fuel : Nat) :
    ∀ (re : RE) (s : List Char) (c : Caps), ∀ r ∈ matchesF fuel re s c,
      r.1.length ≤ s.length ∧ (nullable re = false → r.1.length < s.length) := by
  induction fuel with
  | zero => intro re s c r hr; simp [matchesF] at hr
  | succ fuel ih =>
    intro re s c r hr
    cases re with
    | eps =>
      simp only [matchesF, List.mem_singleton] at hr
      subst hr
      exact ⟨le_refl _, fun hn => by simp [nullable] at hn⟩
    | cls p =>
      simp only [matchesF] at hr
      cases s with
      | nil => simp at hr
      | cons x xs =>
        by_cases hpx : p x
        · simp only [hpx, if_true, List.mem_singleton] at hr
          subst hr
          exact ⟨by simp, fun _ => by simp [Nat.lt_succ_self]⟩
        · simp [hpx] at hr
    | seq a b =>
      simp only [matchesF, List.mem_flatMap] at hr
      obtain ⟨r1, hr1, hr2⟩ := hr
      have h1 := ih a s c r1 hr1
      have h2 := ih b r1.1 r1.2 r hr2
      refine ⟨le_trans h2.1 h1.1, fun hn => ?_⟩
      simp only [nullable, Bool.and_eq_false_iff] at hn
      rcases hn with hn | hn
      · exact lt_of_le_of_lt h2.1 (h1.2 hn)
      · exact lt_of_lt_of_le (h2.2 hn) h1.1
    | alt a b =>
      simp only [matchesF, List.mem_append] at hr
      rcases hr with hr | hr
      · have h1 := ih a s c r hr
        refine ⟨h1.1, fun hn => ?_⟩
        simp only [nullable, Bool.or_eq_false_iff] at hn
        exact h1.2 hn.1
      · have h1 := ih b s c r hr
        refine ⟨h1.1, fun hn => ?_⟩
        simp only [nullable, Bool.or_eq_false_iff] at hn
        exact h1.2 hn.2
    | star a lz =>
      have hmem : r = (s, c) ∨ r ∈ (matchesF fuel a s c).flatMap (fun r1 =>
          if r1.1.length < s.length then matchesF fuel (.star a lz) r1.1 r1.2 else []) := by
        cases lz <;> simp only [matchesF, Bool.false_eq_true, if_false, if_true,
            List.mem_append, List.mem_cons, List.mem_singleton] at hr <;> tauto
      rcases hmem with hr' | hr'
      · subst hr'
        exact ⟨le_refl _, fun hn => by simp [nullable] at hn⟩
      · simp only [List.mem_flatMap] at hr'
        obtain ⟨r1, hr1, hr2⟩ := hr'
        by_cases hlt : r1.1.length < s.length
        · simp only [hlt, if_true] at hr2
          have h2 := ih (.star a lz) r1.1 r1.2 r hr2
          exact ⟨le_trans h2.1 (le_of_lt hlt), fun hn => by simp [nullable] at hn⟩
        · simp [hlt] at hr2
    | grp i a =>
      simp only [matchesF, List.mem_map] at hr
      obtain ⟨r1, hr1, heq⟩ := hr
      have h1 := ih a s c r1 hr1
      subst heq
      exact ⟨h1.1, fun hn => h1.2 (by simpa [nullable] using hn)⟩

/-- Captures only accumulate: a capture that is assigned on every successful
match (`mustCap`), or that was already present, is present afterwards. -/
theorem matchesF_mustCap (fuel : Nat) :
    ∀ (re : RE) (s : List Char) (c : Caps) (i : Nat), ∀ r ∈ matchesF fuel re s c,
      (mustCap re i = true ∨ (getCap i c).isSome = true) →
      (getCap i r.2).isSome = true := by
  induction fuel with
  | zero => intro re s c i r hr; simp [matchesF] at hr
  | succ fuel ih =>
    intro re s c i r hr hin
    cases re with
    | eps =>
      simp only [matchesF, List.mem_singleton] at hr
      subst hr
      rcases hin with h | h
      · simp [mustCap] at h
      · exact h
    | cls p =>
      simp only [matchesF] at hr
      cases s with
      | nil => simp at hr
      | cons x xs =>
        by_cases hpx : p x
        · simp only [hpx, if_true, List.mem_singleton] at hr
          subst hr
          rcases hin with h | h
          · simp [mustCap] at h
          · exact h
        · simp [hpx] at hr
    | seq a b =>
      simp only [matchesF, List.mem_flatMap] at hr
      obtain ⟨r1, hr1, hr2⟩ := hr
      rcases hin with h | h
      · simp only [mustCap, Bool.or_eq_true] at h
        rcases h with h | h
        · exact ih b r1.1 r1.2 i r hr2 (Or.inr (ih a s c i r1 hr1 (Or.inl h)))
        · exact ih b r1.1 r1.2 i r hr2 (Or.inl h)
      · exact ih b r1.1 r1.2 i r hr2 (Or.inr (ih a s c i r1 hr1 (Or.inr h)))
    | alt a b =>
      simp only [matchesF, List.mem_append] at hr
      rcases hin with h | h
      · simp only [mustCap, Bool.and_eq_true] at h
        rcases hr with hr | hr
        · exact ih a s c i r hr (Or.inl h.1)
        · exact ih b s c i r hr (Or.inl h.2)
      · rcases hr with hr | hr
        · exact ih a s c i r hr (Or.inr h)
        · exact ih b s c i r hr (Or.inr h)
    | star a lz =>
      have hc : (getCap i c).isSome = true := by
        rcases hin with h | h
        · simp [mustCap] at h
        · exact h
      have hmem : r = (s, c) ∨ r ∈ (matchesF fuel a s c).flatMap (fun r1 =>
          if r1.1.length < s.length then matchesF fuel (.star a lz) r1.1 r1.2 else []) := by
        cases lz <;> simp only [matchesF, Bool.false_eq_true, if_false, if_true,
            List.mem_append, List.mem_cons, List.mem_singleton] at hr <;> tauto
      rcases hmem with hr' | hr'
      · subst hr'; exact hc
      · simp only [List.mem_flatMap] at hr'
        obtain ⟨r1, hr1, hr2⟩ := hr'
        by_cases hlt : r1.1.length < s.length
        · simp only [hlt, if_true] at hr2
          exact ih (.star a lz) r1.1 r1.2 i r hr2
            (Or.inr (ih a s c i r1 hr1 (Or.inr hc)))
        · simp [hlt] at hr2
    | grp j a =>
      simp only [matchesF, List.mem_map] at hr
      obtain ⟨r1, hr1, heq⟩ := hr
      subst heq
      simp only [getCap_setCap]
      by_cases hji : j = i
      · simp [hji]
      · simp only [hji, if_false]
        rcases hin with h | h
        · simp only [mustCap, Bool.or_eq_true, beq_iff_eq] at h
          rcases h with h | h
          · exact absurd h hji
          · exact ih a s c i r1 hr1 (Or.inl h)
        · exact ih a s c i r1 hr1 (Or.inr h)

/-- When every occurrence of group `i` has a non-nullable body, matching
either leaves the capture untouched or assigns it a non-empty text. -/
theorem matchesF_gnn (fuel : Nat) :
    ∀ (re : RE) (s : List Char) (c : Caps) (i : Nat), gnnAt re i = true →
      ∀ r ∈ matchesF fuel re s c,
        getCap i r.2 = getCap i c ∨ ∃ v, getCap i r.2 = some v ∧ v ≠ [] := by
  induction fuel with
  | zero => intro re s c i _ r hr; simp [matchesF] at hr
  | succ fuel ih =>
    intro re s c i hg r hr
    cases re with
    | eps =>
      simp only [matchesF, List.mem_singleton] at hr
      subst hr; exact Or.inl rfl
    | cls p =>
      simp only [matchesF] at hr
      cases s with
      | nil => simp at hr
      | cons x xs =>
        by_cases hpx : p x
        · simp only [hpx, if_true, List.mem_singleton] at hr
          subst hr; exact Or.inl rfl
        · simp [hpx] at hr
    | seq a b =>
      simp only [matchesF, List.mem_flatMap] at hr
      obtain ⟨r1, hr1, hr2⟩ := hr
      simp only [gnnAt, Bool.and_eq_true] at hg
      have h1 := ih a s c i hg.1 r1 hr1
      have h2 := ih b r1.1 r1.2 i hg.2 r hr2
      rcases h2 with h2 | h2
      · rw [h2]; exact h1
      · exact Or.inr h2
    | alt a b =>
      simp only [matchesF, List.mem_append] at hr
      simp only [gnnAt, Bool.and_eq_true] at hg
      rcases hr with hr | hr
      · exact ih a s c i hg.1 r hr
      · exact ih b s c i hg.2 r hr
    | star a lz =>
      simp only [gnnAt] at hg
      have hmem : r = (s, c) ∨ r ∈ (matchesF fuel a s c).flatMap (fun r1 =>
          if r1.1.length < s.length then matchesF fuel (.star a lz) r1.1 r1.2 else []) := by
        cases lz <;> simp only [matchesF, Bool.false_eq_true, if_false, if_true,
            List.mem_append, List.mem_cons, List.mem_singleton] at hr <;> tauto
      rcases hmem with hr' | hr'
      · subst hr'; exact Or.inl rfl
      · simp only [List.mem_flatMap] at hr'
        obtain ⟨r1, hr1, hr2⟩ := hr'
        by_cases hlt : r1.1.length < s.length
        · simp only [hlt, if_true] at hr2
          have h1 := ih a s c i hg r1 hr1
          have h2 := ih (.star a lz) r1.1 r1.2 i (by simpa [gnnAt] using hg) r hr2
          rcases h2 with h2 | h2
          · rw [h2]; exact h1
          · exact Or.inr h2
        · simp [hlt] at hr2
    | grp j a =>
      simp only [matchesF, List.mem_map] at hr
      obtain ⟨r1, hr1, heq⟩ := hr
      simp only [gnnAt, Bool.and_eq_true, Bool.or_eq_true, Bool.not_eq_true',
        beq_eq_false_iff_ne, ne_eq] at hg
      subst heq
      simp only [getCap_setCap]
      by_cases hji : j = i
      · simp only [hji, if_true]
        refine Or.inr ⟨_, rfl, ?_⟩
        have hnn : nullable a = false := by
          rcases hg.1 with h | h
          · exact absurd hji h
          · exact h
        have hlt := (matchesF_length fuel a s c r1 hr1).2 hnn
        rw [Ne, List.take_eq_nil_iff]
        push_neg
        constructor
        · omega
        · intro hs
          rw [hs] at hlt
          simp at hlt
      · simp only [hji, if_false]
        exact ih a s c i hg.2 r1 hr1

/-- Every match produced by `finditer` carries the capture environment of
some successful run of the backtracker started from an empty environment. -/
theorem finditerAux_caps (re : RE) (s : List Char) :
    ∀ (fuel pos : Nat), ∀ m ∈ finditerAux re s pos fuel,
      ∃ f s0 r, r ∈ matchesF f re s0 ([] : Caps) ∧ m.caps = r.2 := by
  intro fuel
  induction fuel with
  | zero => intro pos m hm; simp [finditerAux] at hm
  | succ fuel ih =>
    intro pos m hm
    rw [show finditerAux re s pos (fuel + 1) =
        if pos > s.length then []
        else match reMatches re (s.drop pos) with
          | [] => finditerAux re s (pos + 1) fuel
          | r :: _ =>
            ⟨pos, pos + ((s.drop pos).length - r.1.length), r.2⟩ ::
              finditerAux re s
                (max (pos + ((s.drop pos).length - r.1.length)) (pos + 1)) fuel
        from rfl] at hm
    by_cases hpos : pos > s.length
    · rw [if_pos hpos] at hm
      simp at hm
    · rw [if_neg hpos] at hm
      cases hmatch : reMatches re (s.drop pos) with
      | nil =>
        rw [hmatch] at hm
        exact ih (pos + 1) m hm
      | cons r t =>
        rw [hmatch] at hm
        rcases List.mem_cons.mp hm with hm | hm
        · refine ⟨matchFuel re (s.drop pos), s.drop pos, r, ?_, by rw [hm]⟩
          rw [show matchesF (matchFuel re (s.drop pos)) re (s.drop pos) [] =
              reMatches re (s.drop pos) from rfl, hmatch]
          exact List.mem_cons_self ..
        · exact ih _ m hm

/-- In a pattern whose group 1 is mandatory and has a non-nullable body,
every `finditer` match assigns group 1 a non-empty text. -/
theorem finditer_cap1 (re : RE) (s : List Char)
    (hm : mustCap re 1 = true) (hg : gnnAt re 1 = true) :
    ∀ m ∈ finditer re s, ∃ v, m.group 1 = some v ∧ v ≠ [] := by
  intro m hmem
  obtain ⟨f, s0, r, hr, hcaps⟩ := finditerAux_caps re s _ 0 m hmem
  have hsome := matchesF_mustCap f re s0 [] 1 r hr (Or.inl hm)
  have hne := matchesF_gnn f re s0 [] 1 hg r hr
  rcases hne with h | ⟨v, hv, hvne⟩
  · rw [show getCap 1 ([] : Caps) = none from rfl] at h
    rw [h] at hsome
    simp at hsome
  · exact ⟨v, by rw [show m.group 1 = getCap 1 m.caps from rfl, hcaps]; exact hv, hvne⟩

theorem String_mk_ne_empty (v : List Char) (h : v ≠ []) : String.mk v ≠ "" :=
  fun he => h (congrArg String.data he)

/-- The name read off group 1 of a `finditer` match of such a pattern is a
non-empty string. -/
theorem capStr_ne_empty (re : RE) (s : List Char)
    (hm : mustCap re 1 = true) (hg : gnnAt re 1 = true) :
    ∀ m ∈ finditer re s, capStr m 1 ≠ "" := by
  intro m hmem
  obtain ⟨v, hv, hvne⟩ := finditer_cap1 re s hm hg m hmem
  have hc : capStr m 1 = String.mk v := by
    simp [capStr, hv]
  rw [hc]
  exact String_mk_ne_empty v hvne

/-! ## Lemmas: structure of the individual parsers -/

/-- Every snippet the Go loop emits carries as `code` the `\n`-join of a
contiguous run of the input's lines. -/
theorem goLoop_code (lines : List (List Char)) :
    ∀ (fuel i : Nat), ∀ s ∈ goLoop lines i fuel,
      ∃ a n, s.code = String.mk (pyJoinNL ((lines.drop a).take n)) := by
  intro fuel
  induction fuel with
  | zero => intro i s hs; simp [goLoop] at hs
  | succ fuel ih =>
    intro i s hs
    rw [goLoop] at hs
    split at hs
    · simp only [] at hs
      split at hs
      · exact ih _ s hs
      · rcases List.mem_cons.mp hs with h' | h'
        · refine ⟨i, goEndLoop (lines.drop i) i 0 i + 1 - i, ?_⟩
          rw [h']
        · exact ih _ s h'
    · simp at hs

theorem go_parse_code_roundtrip (code : List Char) :
    ∀ s ∈ go_parse_code code,
      ∃ a n, s.code = String.mk (pyJoinNL (((pySplitLines code).drop a).take n)) :=
  fun s hs => goLoop_code (pySplitLines code) (pySplitLines code).length 0 s hs

/-- The C++ parser as written never emits a snippet: its first
`self._find_closing_brace` call raises `AttributeError` and the handler
returns `[]`, and with no class or free-function match there is nothing to
emit either. -/
theorem cpp_parse_code_empty (code : List Char) : cpp_parse_code code = [] := by
  unfold cpp_parse_code cpp_parse_body
  cases hcm : finditer cppClassPattern code with
  | cons cm rest =>
    simp [cpp_class_loop, cpp_find_closing_brace_missing, Bind.bind, Except.bind]
  | nil =>
    cases hfm : finditer cppFuncPattern code with
    | nil =>
      simp [cpp_class_loop, cpp_ranges_loop, cpp_func_loop,
        Bind.bind, Except.bind]
    | cons fm rest =>
      simp [cpp_class_loop, cpp_ranges_loop, cpp_func_loop,
        cpp_find_closing_brace_missing, Bind.bind, Except.bind]

/-- The C# parser never emits a snippet named like its owning class:
methods equal to the class name are filtered, free functions carry no
class. -/
theorem csharp_parse_code_no_ctor (code : List Char) :
    ∀ s ∈ csharp_parse_code code, s.class_name ≠ some s.name := by
  intro s hs
  simp only [csharp_parse_code, List.mem_append, List.mem_flatMap,
    List.mem_filterMap, List.mem_map] at hs
  rcases hs with ⟨cm, _, mm, _, hmm⟩ | ⟨p, hp, hps⟩
  · by_cases heq : capStr mm 1 = capStr cm 1
    · simp [heq] at hmm
    · simp only [heq, if_false, Option.some.injEq] at hmm
      subst hmm
      simp only [ne_eq, Option.some.injEq]
      exact fun hc => heq hc.symm
  · simp only [cs_functions_with_starts, List.mem_filterMap] at hp
    obtain ⟨fm, _, hfm⟩ := hp
    split at hfm
    · simp at hfm
    · rw [Option.some.injEq] at hfm
      subst hfm
      rw [← hps]
      simp

/-- Names emitted by the C# parser are non-empty (group 1 of both patterns
is mandatory with a non-nullable body). -/
theorem csharp_parse_code_name_ne (code : List Char) :
    ∀ s ∈ csharp_parse_code code, s.name ≠ "" := by
  intro s hs
  simp only [csharp_parse_code, List.mem_append, List.mem_flatMap,
    List.mem_filterMap, List.mem_map] at hs
  rcases hs with ⟨cm, _, mm, hmm_mem, hmm⟩ | ⟨p, hp, hps⟩
  · split at hmm
    · simp at hmm
    · rw [Option.some.injEq] at hmm
      subst hmm
      exact capStr_ne_empty csMethodPattern _ (by decide) (by decide) mm hmm_mem
  · simp only [cs_functions_with_starts, List.mem_filterMap] at hp
    obtain ⟨fm, hfm_mem, hfm⟩ := hp
    split at hfm
    · simp at hfm
    · rw [Option.some.injEq] at hfm
      subst hfm
      rw [← hps]
      exact capStr_ne_empty csFuncPattern _ (by decide) (by decide) fm hfm_mem

/-- Names emitted by the Python regex fallback are non-empty. -/
theorem python_parse_with_regex_name_ne (code : List Char) :
    ∀ s ∈ python_parse_with_regex code, s.name ≠ "" := by
  intro s hs
  simp only [python_parse_with_regex, List.mem_map] at hs
  obtain ⟨m, hm_mem, hm⟩ := hs
  subst hm
  exact capStr_ne_empty pyFuncPattern _ (by decide) (by decide) m hm_mem

/-- A `pyTry` whose handler always succeeds always succeeds. -/
theorem pyTry_ok {ε α : Type} (body : Except ε α) (handler : ε → Except ε α)
    (h : ∀ e, ∃ a, handler e = .ok a) : ∃ a, pyTry body handler = .ok a := by
  cases body with
  | ok a => exact ⟨a, rfl⟩
  | error e => exact h e

/-- The Python entry point never propagates an exception. -/
theorem python_parse_code_total (code : List Char) :
    ∃ l, python_parse_code code = .ok l := by
  unfold python_parse_code
  apply pyTry_ok
  intro e
  exact ⟨python_parse_with_regex code, rfl⟩

/-- The Java entry point never propagates an exception. -/
theorem java_parse_code_total (code : List Char) :
    ∃ l, java_parse_code code = .ok l := by
  unfold java_parse_code
  apply pyTry_ok
  intro e
  exact ⟨[], rfl⟩

/-- On a grammar-parse failure the Java parser returns a bare empty list. -/
theorem java_parse_code_failure_empty (code : List Char) (e : ParseFailed)
    (h : javalangParse code = .error e) :
    java_parse_code code = .ok [] := by
  unfold java_parse_code
  simp [pyTry, h, Bind.bind, Except.bind]
  rfl

/-! ## The claims -/

/-- C1: on the input `class A { void m(){} };` followed by `void g(){}`,
`CppParser.parse_code` as written raises `AttributeError` at its first
`self._find_closing_brace` call (the method does not exist) and the blanket
handler returns `[]` — not the claimed two snippets.  Binding the call to
the base class's `find_closing_brace`, as the file's own closing comment
prescribes, would yield exactly the claimed Method `m` (class `A`) and
Function `g`. -/
theorem C1_cpp_attribute_error_returns_empty :
    cpp_parse_code ("class A \x7b void m()\x7b\x7d \x7d;\nvoid g()\x7b\x7d".toList) = [] ∧
    cpp_parse_body ("class A \x7b void m()\x7b\x7d \x7d;\nvoid g()\x7b\x7d".toList) =
      .error .attributeError ∧
    cpp_parse_code_intended ("class A \x7b void m()\x7b\x7d \x7d;\nvoid g()\x7b\x7d".toList) =
      [⟨"m", "method", "void m()\x7b\x7d", "cpp", some "A", none⟩,
       ⟨"g", "function", "void g()\x7b\x7d", "cpp", none, none⟩] := by
  refine ⟨by rfl, by rfl, by rfl⟩

/-- C2: the C# extractor's free-function pass checks match starts only
against the class *header* regex ranges, not against the brace-counted
`ClassSpan`s.  On `public  class A { public void M() { } }` the single
brace-counted ClassSpan is `(0, 39)`, yet a Function snippet is emitted for
the match starting at offset 18 — strictly inside that span — so the claimed
invariant fails for C#. -/
theorem C2_csharp_function_emitted_inside_class_span :
    cs_class_spans ("public  class A \x7b public void M() \x7b \x7d \x7d".toList) = [(0, 39)] ∧
    cs_functions_with_starts ("public  class A \x7b public void M() \x7b \x7d \x7d".toList) =
      [(⟨"M", "function", "public void M() \x7b \x7d", "csharp", none, none⟩, 18)] ∧
    csharp_parse_code ("public  class A \x7b public void M() \x7b \x7d \x7d".toList) =
      [⟨"M", "method", "public void M() \x7b \x7d", "csharp", some "A", none⟩,
       ⟨"M", "function", "public void M() \x7b \x7d", "csharp", none, none⟩] ∧
    (0 < 18 ∧ 18 < 39) := by
  refine ⟨by rfl, by rfl, by rfl, by decide⟩

/-- C3: on a valid two-line function followed by a syntax-error line, the
Python grammar parse fails, the regex fallback runs — and it emits a
snippet named `f` whose `code` is the *empty* string, not the function's
two lines: the body loop compares the first body line's indentation
strictly against itself and stops immediately, leaving
`func_end_line = 0`. -/
theorem C3_python_fallback_emits_empty_code :
    astParse ("def f():\n    return 1\n)".toList) = .error .parseFailed ∧
    python_parse_with_regex ("def f():\n    return 1\n)".toList) =
      [⟨"f", "function", "", "python", none, none⟩] ∧
    python_parse_code ("def f():\n    return 1\n)".toList) =
      .ok [⟨"f", "function", "", "python", none, none⟩] := by
  refine ⟨by rfl, by rfl, by rfl⟩

/-- C4 (amended): the C# extractor never emits a snippet whose name equals
its owning class (constructors are skipped by an explicit filter); the C++
extractor satisfies the property vacuously, since as written it emits no
snippet at all (`AttributeError` on the undefined `_find_closing_brace`,
caught and turned into `[]`); the Go and Python extractors have no such
filter, and Go emits `name = owningType = "Foo"` for
`func (s *Foo) Foo() { return }` (see the counterexample). -/
theorem C4_constructor_exclusion_cpp_csharp :
    ∀ (code : List Char) (s : CodeSnippet),
      (s ∈ csharp_parse_code code → s.class_name ≠ some s.name) ∧
      cpp_parse_code code = [] :=
  fun code s => ⟨fun h => csharp_parse_code_no_ctor code s h,
    cpp_parse_code_empty code⟩

theorem C4_constructor_exclusion_cpp_csharp_witness :
    (⟨"M", "method", "public void M() \x7b \x7d", "csharp", some "A", none⟩ : CodeSnippet) ∈
      csharp_parse_code ("public  class A \x7b public void M() \x7b \x7d \x7d".toList) ∧
    (⟨"M", "method", "public void M() \x7b \x7d", "csharp", some "A", none⟩ :
        CodeSnippet).class_name ≠
      some (⟨"M", "method", "public void M() \x7b \x7d", "csharp", some "A", none⟩ :
        CodeSnippet).name := by
  constructor
  · decide
  · exact (C4_constructor_exclusion_cpp_csharp
      ("public  class A \x7b public void M() \x7b \x7d \x7d".toList)
      ⟨"M", "method", "public void M() \x7b \x7d", "csharp", some "A", none⟩).1 (by decide)

/-- C4 counterexample: the Go extractor emits a Method snippet whose name
equals its owningType. -/
theorem C4_counterexample_go_method_named_like_receiver :
    go_parse_code ("func (s *Foo) Foo() \x7b return \x7d".toList) =
      [⟨"Foo", "method", "func (s *Foo) Foo() \x7b return \x7d", "go", some "Foo", none⟩] ∧
    (⟨"Foo", "method", "func (s *Foo) Foo() \x7b return \x7d", "go", some "Foo", none⟩ :
        CodeSnippet).class_name =
      some (⟨"Foo", "method", "func (s *Foo) Foo() \x7b return \x7d", "go", some "Foo",
        none⟩ : CodeSnippet).name := by
  refine ⟨by rfl, by rfl⟩

/-- C5 (amended): when the Java grammar parse fails, `parse_code` catches
the error and returns a bare empty list — no failure signal reaches the
caller. -/
theorem C5_java_failure_returns_bare_empty_list :
    ∀ (code : List Char) (e : ParseFailed), javalangParse code = .error e →
      java_parse_code code = .ok [] :=
  java_parse_code_failure_empty

theorem C5_java_failure_returns_bare_empty_list_witness :
    javalangParse (")".toList) = .error .parseFailed ∧
    java_parse_code (")".toList) = .ok [] :=
  ⟨rfl, C5_java_failure_returns_bare_empty_list (")".toList) .parseFailed rfl⟩

/-- C5 counterexample: malformed Java (grammar failure) and well-formed
declaration-free Java both yield the identical plain `[]`, so the caller
cannot distinguish "could not parse" from a valid empty result. -/
theorem C5_counterexample_failure_indistinguishable_from_empty :
    javalangParse (")".toList) = .error .parseFailed ∧
    javalangParse ("class A \x7b\n\x7d".toList) = .ok [⟨"A", []⟩] ∧
    java_parse_code (")".toList) = .ok [] ∧
    java_parse_code ("class A \x7b\n\x7d".toList) = .ok [] := by
  refine ⟨by rfl, by rfl, by rfl, by rfl⟩

/-- C6 (amended): the round-trip property holds for the Go extractor —
every emitted snippet's `code` is the `\n`-join of a contiguous run of the
original source's lines.  The C# extractor instead slices mid-line
character offsets (see the counterexample); the C++ extractor's analogous
slicing is unreachable, as it always returns `[]`. -/
theorem C6_go_snippet_is_line_range_join :
    ∀ (code : List Char) (s : CodeSnippet), s ∈ go_parse_code code →
      ∃ a n, s.code = lineRangeJoin code a n :=
  fun code s hs => go_parse_code_roundtrip code s hs

theorem C6_go_snippet_is_line_range_join_witness :
    (⟨"f", "function", "func f() \x7b \x7d", "go", none, none⟩ : CodeSnippet) ∈
      go_parse_code ("func f() \x7b \x7d".toList) ∧
    ∃ a n, (⟨"f", "function", "func f() \x7b \x7d", "go", none, none⟩ :
      CodeSnippet).code = lineRangeJoin ("func f() \x7b \x7d".toList) a n :=
  ⟨by decide, C6_go_snippet_is_line_range_join ("func f() \x7b \x7d".toList) _ (by decide)⟩

/-- C6 counterexample: the C# Method snippet `M` has `code`
`public void M() { }`, a mid-line substring of the single-line input; no
join of a contiguous line range of the input reproduces it. -/
theorem C6_counterexample_csharp_midline_snippet :
    (⟨"M", "method", "public void M() \x7b \x7d", "csharp", some "A", none⟩ : CodeSnippet) ∈
      csharp_parse_code ("public  class A \x7b public void M() \x7b \x7d \x7d".toList) ∧
    ∀ a n : Nat,
      lineRangeJoin ("public  class A \x7b public void M() \x7b \x7d \x7d".toList) a n ≠
        "public void M() \x7b \x7d" := by
  constructor
  · decide
  · intro a n
    unfold lineRangeJoin
    rw [show pySplitLines ("public  class A \x7b public void M() \x7b \x7d \x7d".toList) =
        ["public  class A \x7b public void M() \x7b \x7d \x7d".toList] from rfl]
    rcases a with _ | a
    · rcases n with _ | n
      · decide
      · rw [List.take_of_length_le (by simp)]
        decide
    · rw [List.drop_eq_nil_of_le (by simp), List.take_nil]
      decide

/-- C7 (amended): the Brace Counting primitive does *not* ignore `}` before
the first `{`: it counts every brace from the start offset on (the count can
go negative), and returns one past the first position at which an opening
brace has been seen *and* the running balance is zero — which can be the
position of the first `{` itself; when no such position exists it returns
the text length. -/
theorem C7_brace_counting_characterisation :
    ∀ (code : List Char) (p : Nat),
      find_closing_brace code p =
        match (List.range (code.drop p).length).find? (fcbStop code p) with
        | some j => p + j + 1
        | none => code.length :=
  find_closing_brace_eq

/-- C7 counterexample: on `}{}` from offset 0 the code returns 2 (one past
the `{`, because the leading `}` drove the count to −1), while the claimed
algorithm — ignore everything before the first `{`, then count — returns 3. -/
theorem C7_counterexample_leading_close_brace :
    find_closing_brace ("\x7d\x7b\x7d".toList) 0 = 2 ∧
    claimBraceFind ("\x7d\x7b\x7d".toList) 0 = 3 ∧ (2 : Nat) ≠ 3 := by
  refine ⟨by rfl, by rfl, by decide⟩

/-- C8: Brace Counting terminates on any input and start offset with a
result at most the text length, and returns exactly the text length when no
scanned prefix ever satisfies the stop condition (the unbalanced case). -/
theorem C8_brace_counting_safety :
    ∀ (code : List Char) (p : Nat),
      find_closing_brace code p ≤ code.length ∧
      ((∀ j, j < (code.drop p).length → fcbStop code p j = false) →
        find_closing_brace code p = code.length) := by
  intro code p
  refine ⟨find_closing_brace_le code p, fun h => ?_⟩
  rw [find_closing_brace_eq]
  have hnone : (List.range (code.drop p).length).find? (fcbStop code p) = none := by
    rw [List.find?_eq_none]
    intro j hj
    simp [h j (List.mem_range.mp hj)]
  rw [hnone]

theorem C8_brace_counting_safety_witness :
    find_closing_brace ("abc".toList) 0 = ("abc".toList).length ∧
    find_closing_brace ("abc".toList) 0 ≤ ("abc".toList).length :=
  ⟨(C8_brace_counting_safety ("abc".toList) 0).2 (by decide),
   (C8_brace_counting_safety ("abc".toList) 0).1⟩

/-- C9 (amended): the C# and Python-fallback extractors only emit snippets
with non-empty names (the name is a mandatory `+`-group of the match); the
C++ extractor emits no snippets at all (its parse raises `AttributeError`
and the handler returns `[]`), so the property is vacuous there; the Go
extractor can emit an empty name when its header pattern matches but the
name pattern does not (see the counterexample). -/
theorem C9_nonempty_names_csharp_python_cpp :
    ∀ (code : List Char) (s : CodeSnippet),
      (s ∈ csharp_parse_code code → s.name ≠ "") ∧
      (s ∈ python_parse_with_regex code → s.name ≠ "") ∧
      cpp_parse_code code = [] :=
  fun code s => ⟨fun h => csharp_parse_code_name_ne code s h,
    fun h => python_parse_with_regex_name_ne code s h,
    cpp_parse_code_empty code⟩

theorem C9_nonempty_names_csharp_python_cpp_witness :
    (⟨"M", "method", "public void M() \x7b \x7d", "csharp", some "A", none⟩ : CodeSnippet) ∈
      csharp_parse_code ("public  class A \x7b public void M() \x7b \x7d \x7d".toList) ∧
    (⟨"M", "method", "public void M() \x7b \x7d", "csharp", some "A", none⟩ :
      CodeSnippet).name ≠ "" := by
  constructor
  · decide
  · exact (C9_nonempty_names_csharp_python_cpp
      ("public  class A \x7b public void M() \x7b \x7d \x7d".toList)
      ⟨"M", "method", "public void M() \x7b \x7d", "csharp", some "A", none⟩).1 (by decide)

/-- C9 counterexample: on the line `func (` the Go extractor's name search
fails and it emits a snippet whose name is the empty string. -/
theorem C9_counterexample_go_empty_name :
    go_parse_code ("func (".toList) =
      [⟨"", "function", "func (", "go", none, none⟩] ∧
    (⟨"", "function", "func (", "go", none, none⟩ : CodeSnippet).name = "" := by
  refine ⟨by rfl, by rfl⟩

/-- C10 (amended): the Python and Java entry points are total — every
internal grammar-parse failure is caught and an ordinary list is returned
(the C++/C#/Go embeddings are plain list-valued functions).  But the
handler does not always return an *empty* list: Python falls back to the
regex parser (see the counterexample). -/
theorem C10_parse_code_total :
    ∀ code : List Char,
      (∃ l, python_parse_code code = .ok l) ∧
      (∃ l, java_parse_code code = .ok l) :=
  fun code => ⟨python_parse_code_total code, java_parse_code_total code⟩

/-- C10 counterexample: on input whose grammar parse raises, the Python
parser catches the exception but returns the regex fallback's non-empty
result, not an empty list. -/
theorem C10_counterexample_python_handler_not_empty :
    astParse ("def f():\n    return 1\n)".toList) = .error .parseFailed ∧
    python_parse_code ("def f():\n    return 1\n)".toList) =
      .ok [⟨"f", "function", "", "python", none, none⟩] ∧
    ([⟨"f", "function", "", "python", none, none⟩] : List CodeSnippet) ≠ [] := by
  refine ⟨by rfl, by rfl, by decide⟩

end Spec2Proof

